import Mathlib

/-!
Verification of the rusEFI trigger scheduler core
(src/c_sources/trigger_scheduler.cpp) against its natural-language
specification.  Engine angles (C float angle_t) are modelled as exact
rationals, caller-owned event objects as a heap from identities to field
values, the intrusive pending list as the list of linked identities, and
calls into the external Timed Executor as an explicit effect trace.
-/

namespace TriggerSched

/-- Engine angle, the C type angle_t (a float number of degrees), modelled as
an exact rational. -/
abbrev Angle := ℚ

/-- Modelled from the spec: the sentinel tooth index TRIGGER_EVENT_UNDEFINED
("Otherwise pass in TRIGGER_EVENT_UNDEFINED and the work will be scheduled on
the next trigger edge", trigger_scheduler.cpp line 13); its numeric value
(UINT32_MAX) is defined outside the staged files. -/
def TRIGGER_EVENT_UNDEFINED : Nat := 4294967295

/-- Index-based rotational position of an AngleBasedEventOld: the pair
(triggerEventIndex, angleOffsetFromTriggerEvent). -/
structure TriggerPosition where
  triggerEventIndex : Nat
  angleOffsetFromTriggerEvent : Angle
  deriving DecidableEq

/-- Variant-specific position fields of the two AngleBasedEvent subclasses,
as the tagged sum the spec's design notes suggest. -/
inductive EventPos where
  | old (position : TriggerPosition)
  | new (enginePhase : Angle)
  deriving DecidableEq

/-- Mutable fields of one caller-owned AngleBasedEvent object: its
variant-specific position and its stored action (action_s modelled as an
opaque Nat handle). -/
structure EventData where
  pos : EventPos
  action : Nat
  deriving DecidableEq

/-- Modelled from the spec: the phase-window membership test isPhaseInRange
called by AngleBasedEventNew::shouldSchedule (its body is not among the
staged files); per the spec the phase "lies in the half-open interval from
currentPhase to nextPhase, with wraparound at the engine-cycle length treated
as a single contiguous interval (if nextPhase < currentPhase, the interval
wraps through 0)". -/
def isPhaseInRange (test current next : Angle) : Bool :=
  if next < current then decide (current ≤ test) || decide (test < next)
  else decide (current ≤ test) && decide (test < next)

/-- Virtual dispatch of AngleBasedEventOld::shouldSchedule
(trigger_scheduler.cpp lines 180-182) and AngleBasedEventNew::shouldSchedule
(lines 188-190) over the tagged event representation. -/
def shouldSchedule (e : EventData) (trgEventIndex : Nat)
    (currentPhase nextPhase : Angle) : Bool :=
  match e.pos with
  | .old position => position.triggerEventIndex == trgEventIndex
  | .new enginePhase => isPhaseInRange enginePhase currentPhase nextPhase

/-- Virtual dispatch of AngleBasedEventOld::getAngleFromNow (lines 184-186)
and AngleBasedEventNew::getAngleFromNow (lines 192-199); engineCycle stands
for the external engine->engineState.engineCycle value. -/
def getAngleFromNow (engineCycle : Angle) (e : EventData)
    (currentPhase : Angle) : Angle :=
  match e.pos with
  | .old position => position.angleOffsetFromTriggerEvent
  | .new enginePhase =>
    let angleOffset := enginePhase - currentPhase
    if angleOffset < 0 then angleOffset + engineCycle else angleOffset

/-- State of the TriggerScheduler and its surroundings: events are
caller-owned objects named by their identity (the C pointer), heap maps each
identity to the object's current field values, pending is the intrusive list
m_angleBasedEventsHead as the sequence of linked identities, and
systemEventReuse is engine->outputChannels.systemEventReuse. -/
structure SchedState where
  heap : Nat → EventData
  pending : List Nat
  systemEventReuse : Nat

/-- Pointwise update of one event object's fields. -/
def setEvent (h : Nat → EventData) (i : Nat) (d : EventData) : Nat → EventData :=
  fun j => if j = i then d else h j

/-- Calls made into the external Timed Executor, keyed by the per-event
scheduling_s handle (identified with the event's identity): executor.cancel
and scheduleByAngle (which arms the executor with the action and the time
computed from edgeTimestamp and the given angle). -/
inductive Effect where
  | cancel (schedId : Nat)
  | arm (schedId : Nat) (edgeTimestamp : Int) (angle : Angle) (action : Nat)
  deriving DecidableEq

/-- Modelled from the spec: TriggerScheduler::assertNotInList, whose macro
body assertNotInListMethodBody (line 6) is not among the staged files; it is
the "not-already-present check", true exactly when the element is already
linked in the list. -/
def assertNotInList (head : List Nat) (element : Nat) : Bool :=
  head.contains element

/-- Modelled from the spec: the RPM validity predicate supplied by the
trigger/RPM subsystem ("RPM validity predicate and current value"); the
claims depend only on the predicate having both outcomes. -/
def isValidRpm (rpm : Int) : Bool :=
  decide (0 < rpm)

/-- TriggerScheduler::scheduleOrQueue for AngleBasedEventOld
(trigger_scheduler.cpp lines 19-73).  setAngle stands for the external
TriggerPosition::setAngle mapping the requested angle to a tooth position
(line 24).  Returns the new state, the returned bool, and the Timed-Executor
effects emitted. -/
def scheduleOrQueueOld (setAngle : Angle → TriggerPosition) (s : SchedState)
    (event trgEventIndex : Nat) (edgeTimestamp : Int) (angle : Angle)
    (action : Nat) : SchedState × Bool × List Effect :=
  let position := setAngle angle
  let s0 : SchedState :=
    { s with heap := setEvent s.heap event { s.heap event with pos := .old position } }
  if trgEventIndex != TRIGGER_EVENT_UNDEFINED &&
      position.triggerEventIndex == trgEventIndex then
    (s0, true, [Effect.arm event edgeTimestamp position.angleOffsetFromTriggerEvent action])
  else
    let s1 : SchedState :=
      { s0 with heap := setEvent s0.heap event { s0.heap event with action := action } }
    if assertNotInList s1.pending event then
      ({ s1 with systemEventReuse := s1.systemEventReuse + 1 }, false, [])
    else
      ({ s1 with pending := s1.pending ++ [event] }, false, [])

/-- TriggerScheduler::scheduleOrQueue for AngleBasedEventNew (lines 75-114).
Note that the duplicate branch of this overload (lines 110-113) returns
without touching systemEventReuse. -/
def scheduleOrQueueNew (engineCycle : Angle) (s : SchedState)
    (event trgEventIndex : Nat) (edgeTimestamp : Int) (angle : Angle)
    (action : Nat) (currentPhase nextPhase : Angle) :
    SchedState × Bool × List Effect :=
  let s0 : SchedState :=
    { s with heap := setEvent s.heap event { s.heap event with pos := .new angle } }
  if shouldSchedule (s0.heap event) trgEventIndex currentPhase nextPhase then
    (s0, true,
      [Effect.arm event edgeTimestamp
        (getAngleFromNow engineCycle (s0.heap event) currentPhase) action])
  else
    let s1 : SchedState :=
      { s0 with heap := setEvent s0.heap event { s0.heap event with action := action } }
    if assertNotInList s1.pending event then
      (s1, false, [])
    else
      ({ s1 with pending := s1.pending ++ [event] }, false, [])

/-- Effects emitted for one due event by the sweep (lines 149-165):
executor.cancel on its scheduling handle, then the scheduleByAngle arming
with getAngleFromNow(currentPhase) and the stored action. -/
def dueEffects (engineCycle : Angle) (heap : Nat → EventData)
    (edgeTimestamp : Int) (currentPhase : Angle) (e : Nat) : List Effect :=
  [Effect.cancel e,
   Effect.arm e edgeTimestamp (getAngleFromNow engineCycle (heap e) currentPhase)
     (heap e).action]

/-- Accumulator of the LL_FOREACH_SAFE2 sweep loop: the retained events in
order (what is left of keephead), the last retained event (keeptail), and the
executor effects emitted so far. -/
structure SweepAcc where
  keep : List Nat
  keeptail : Option Nat
  effects : List Effect

/-- One iteration of the sweep loop (lines 135-169): a due event is unlinked
and its cancel-then-arm effects are emitted; a non-due event stays linked and
becomes the current keeptail. -/
def sweepStep (engineCycle : Angle) (heap : Nat → EventData) (trgEventIndex : Nat)
    (edgeTimestamp : Int) (currentPhase nextPhase : Angle)
    (acc : SweepAcc) (current : Nat) : SweepAcc :=
  if shouldSchedule (heap current) trgEventIndex currentPhase nextPhase then
    { acc with effects := acc.effects ++ dueEffects engineCycle heap edgeTimestamp currentPhase current }
  else
    { keep := acc.keep ++ [current], keeptail := some current, effects := acc.effects }

/-- TriggerScheduler::scheduleEventsUntilNextTriggerTooth (lines 116-178):
the invalid-RPM early return, the detach of the pending list, the sweep, and
the final splice.  The result none models the splice (line 175) dereferencing
keeptail while it is still null; any other outcome is some of the new state
and the emitted effects. -/
def scheduleEventsUntilNextTriggerTooth (engineCycle : Angle) (s : SchedState)
    (rpm : Int) (trgEventIndex : Nat) (edgeTimestamp : Int)
    (currentPhase nextPhase : Angle) : Option (SchedState × List Effect) :=
  if isValidRpm rpm = false then
    some (s, [])
  else
    let keephead := s.pending
    let s1 : SchedState := { s with pending := [] }
    let acc := keephead.foldl
      (sweepStep engineCycle s.heap trgEventIndex edgeTimestamp currentPhase nextPhase)
      ⟨[], none, []⟩
    if acc.keep.isEmpty then
      some (s1, acc.effects)
    else
      match acc.keeptail with
      | none => none
      | some _ => some ({ s1 with pending := acc.keep ++ s1.pending }, acc.effects)

/-- True on an arm effect addressed to the given scheduling handle. -/
def Effect.isArmFor : Effect → Nat → Bool
  | .arm h _ _ _, e => h == e
  | .cancel _, _ => false

/-- Number of arm effects for the given event in a trace. -/
def armCount (e : Nat) (effs : List Effect) : Nat :=
  (effs.filter (fun f => f.isArmFor e)).length

/-- Modelled from the spec: the Timed Executor's table of outstanding
armings, keyed by the per-event scheduling handle.  Per the spec's data model
the handle correlates its event "to at most one outstanding Timed-Executor
arming", so arming a handle replaces any prior arming for it, and cancel
removes it (idempotent when none exists). -/
def applyEffect (st : List (Nat × Int × Angle × Nat)) :
    Effect → List (Nat × Int × Angle × Nat)
  | .cancel h => st.filter (fun p => p.1 != h)
  | .arm h ts a act => st.filter (fun p => p.1 != h) ++ [(h, ts, a, act)]

/-- Outstanding armings after a trace of executor calls, starting idle. -/
def replay (effs : List Effect) : List (Nat × Int × Angle × Nat) :=
  effs.foldl applyEffect []

/-- True when a trace consists of cancel-then-arm pairs on matching handles:
every arming is immediately preceded by a cancel of the same handle. -/
def isCancelArmPairs : List Effect → Bool
  | [] => true
  | Effect.cancel h :: Effect.arm h2 _ _ _ :: rest => h == h2 && isCancelArmPairs rest
  | _ => false

/-- One scheduling-request call, either overload. -/
inductive Op where
  | old (setAngle : Angle → TriggerPosition) (event trgEventIndex : Nat)
      (edgeTimestamp : Int) (angle : Angle) (action : Nat)
  | new (engineCycle : Angle) (event trgEventIndex : Nat)
      (edgeTimestamp : Int) (angle : Angle) (action : Nat)
      (currentPhase nextPhase : Angle)

/-- State reached after one scheduleOrQueue call. -/
def runOp (s : SchedState) : Op → SchedState
  | .old f event trg ts ang act => (scheduleOrQueueOld f s event trg ts ang act).1
  | .new l event trg ts ang act c n => (scheduleOrQueueNew l s event trg ts ang act c n).1

/-- State reached after a sequence of scheduleOrQueue calls. -/
def runOps (s : SchedState) (ops : List Op) : SchedState :=
  ops.foldl runOp s

theorem setEvent_same (h : Nat → EventData) (i : Nat) (d : EventData) :
    setEvent h i d i = d := by
  simp [setEvent]

/-! Behaviour of the sweep loop, established once and reused below. -/

theorem foldl_sweepStep_keep (engineCycle : Angle) (heap : Nat → EventData)
    (trg : Nat) (ts : Int) (cur next : Angle) (l : List Nat) (acc : SweepAcc) :
    (l.foldl (sweepStep engineCycle heap trg ts cur next) acc).keep =
      acc.keep ++ l.filter (fun e => !shouldSchedule (heap e) trg cur next) := by
  induction l generalizing acc with
  | nil => simp
  | cons e l ih =>
    rw [List.foldl_cons, ih]
    cases h : shouldSchedule (heap e) trg cur next <;>
      simp [sweepStep, h, List.filter_cons]

theorem foldl_sweepStep_effects (engineCycle : Angle) (heap : Nat → EventData)
    (trg : Nat) (ts : Int) (cur next : Angle) (l : List Nat) (acc : SweepAcc) :
    (l.foldl (sweepStep engineCycle heap trg ts cur next) acc).effects =
      acc.effects ++
        (l.filter (fun e => shouldSchedule (heap e) trg cur next)).flatMap
          (dueEffects engineCycle heap ts cur) := by
  induction l generalizing acc with
  | nil => simp
  | cons e l ih =>
    rw [List.foldl_cons, ih]
    cases h : shouldSchedule (heap e) trg cur next <;>
      simp [sweepStep, h, List.filter_cons]

theorem foldl_sweepStep_keeptail (engineCycle : Angle) (heap : Nat → EventData)
    (trg : Nat) (ts : Int) (cur next : Angle) (l : List Nat) (acc : SweepAcc)
    (hacc : acc.keep ≠ [] → acc.keeptail.isSome = true) :
    (l.foldl (sweepStep engineCycle heap trg ts cur next) acc).keep ≠ [] →
      (l.foldl (sweepStep engineCycle heap trg ts cur next) acc).keeptail.isSome = true := by
  induction l generalizing acc with
  | nil => exact hacc
  | cons e l ih =>
    rw [List.foldl_cons]
    refine ih _ ?_
    cases h : shouldSchedule (heap e) trg cur next
    · intro _
      simp [sweepStep, h]
    · intro hk
      simpa [sweepStep, h] using hacc (by simpa [sweepStep, h] using hk)

theorem armCount_flatMap_dueEffects (engineCycle : Angle) (heap : Nat → EventData)
    (ts : Int) (cur : Angle) (l : List Nat) (e : Nat) :
    armCount e (l.flatMap (dueEffects engineCycle heap ts cur)) = l.count e := by
  induction l with
  | nil => simp [armCount]
  | cons x l ih =>
    rw [List.flatMap_cons]
    by_cases h : x = e
    · subst h
      simp [armCount, dueEffects, Effect.isArmFor, List.count_cons, List.filter_append] at ih ⊢
      omega
    · have hx : (x == e) = false := by simpa using h
      simp [armCount, dueEffects, Effect.isArmFor, List.count_cons, hx,
        List.filter_append] at ih ⊢
      omega

/-! Example fixtures used by witness theorems: event 1 is an index-based
event due at tooth 3 with offset 15 and action 11, event 2 a phase-based
event at engine phase 100 with action 22, both pending. -/

def exHeap : Nat → EventData :=
  fun i => if i = 1 then ⟨.old ⟨3, 15⟩, 11⟩ else ⟨.new 100, 22⟩

def exState : SchedState := ⟨exHeap, [1, 2], 0⟩

/-- C1: with a valid rpm, one sweep removes exactly the pending events whose
shouldSchedule holds for the tooth context, arms each of them exactly once,
and leaves every non-due event pending in its original relative order (the
event objects and the reuse counter untouched). -/
theorem sweep_completeness (engineCycle : Angle) (s : SchedState) (rpm : Int)
    (trg : Nat) (ts : Int) (cur next : Angle)
    (hrpm : isValidRpm rpm = true) (hnodup : s.pending.Nodup) :
    scheduleEventsUntilNextTriggerTooth engineCycle s rpm trg ts cur next =
      some ({ s with pending := s.pending.filter (fun e => !shouldSchedule (s.heap e) trg cur next) },
        (s.pending.filter (fun e => shouldSchedule (s.heap e) trg cur next)).flatMap
          (dueEffects engineCycle s.heap ts cur)) ∧
    (∀ e ∈ s.pending, shouldSchedule (s.heap e) trg cur next = true →
      armCount e ((s.pending.filter (fun e => shouldSchedule (s.heap e) trg cur next)).flatMap
        (dueEffects engineCycle s.heap ts cur)) = 1) ∧
    (∀ e : Nat, e ∉ s.pending.filter (fun e => shouldSchedule (s.heap e) trg cur next) →
      armCount e ((s.pending.filter (fun e => shouldSchedule (s.heap e) trg cur next)).flatMap
        (dueEffects engineCycle s.heap ts cur)) = 0) := by
  refine ⟨?_, ?_, ?_⟩
  · have hkeep := foldl_sweepStep_keep engineCycle s.heap trg ts cur next s.pending ⟨[], none, []⟩
    have heff := foldl_sweepStep_effects engineCycle s.heap trg ts cur next s.pending ⟨[], none, []⟩
    have htail := foldl_sweepStep_keeptail engineCycle s.heap trg ts cur next s.pending ⟨[], none, []⟩
      (by intro h; exact absurd rfl h)
    simp only [scheduleEventsUntilNextTriggerTooth]
    rw [if_neg (by simp [hrpm])]
    by_cases hk : s.pending.filter (fun e => !shouldSchedule (s.heap e) trg cur next) = []
    · rw [if_pos (by simp [hkeep, hk]), heff, hk]
      simp
    · rw [if_neg (by simp [hkeep, hk])]
      have hsome : (s.pending.foldl
          (sweepStep engineCycle s.heap trg ts cur next) ⟨[], none, []⟩).keeptail.isSome = true :=
        htail (by simp [hkeep, hk])
      cases hkt : (s.pending.foldl
          (sweepStep engineCycle s.heap trg ts cur next) ⟨[], none, []⟩).keeptail with
      | none => rw [hkt] at hsome; simp at hsome
      | some t => simp [hkeep, heff]
  · intro e he hdue
    rw [armCount_flatMap_dueEffects]
    exact List.count_eq_one_of_mem (hnodup.filter _) (List.mem_filter.mpr ⟨he, hdue⟩)
  · intro e he
    rw [armCount_flatMap_dueEffects]
    exact List.count_eq_zero_of_not_mem he

/-- Witness for C1: at tooth 3 with phases 0 to 10, the index-based event 1
is due (removed and armed with offset 15 and action 11) and the phase-based
event 2 at phase 100 stays pending. -/
theorem sweep_completeness_witness :
    isValidRpm 3000 = true ∧ exState.pending.Nodup ∧
      scheduleEventsUntilNextTriggerTooth 720 exState 3000 3 0 0 10 =
        some ({ exState with pending := [2] },
          [Effect.cancel 1, Effect.arm 1 0 15 11]) := by
  refine ⟨by decide, by decide, ?_⟩
  have h := (sweep_completeness 720 exState 3000 3 0 0 10 (by decide) (by decide)).1
  rw [h]
  rfl

/-- C4: a sweep called with an invalid rpm is a no-op: the scheduler state,
including the pending list, is returned unchanged and no executor call is
made. -/
theorem invalid_rpm_noop (engineCycle : Angle) (s : SchedState) (rpm : Int)
    (trg : Nat) (ts : Int) (cur next : Angle) (h : isValidRpm rpm = false) :
    scheduleEventsUntilNextTriggerTooth engineCycle s rpm trg ts cur next = some (s, []) := by
  simp [scheduleEventsUntilNextTriggerTooth, h]

/-- Witness for C4: rpm 0 is invalid and the sweep leaves the example state
untouched with no effects. -/
theorem invalid_rpm_noop_witness :
    isValidRpm 0 = false ∧
      scheduleEventsUntilNextTriggerTooth 720 exState 0 3 0 0 10 = some (exState, []) :=
  ⟨by decide, invalid_rpm_noop 720 exState 0 3 0 0 10 (by decide)⟩

/-- C10: the sweep never dereferences a null keeptail in its final splice:
whenever the loop finishes with a non-empty retained list some event was
retained, so keeptail was set; the function therefore never reaches the
none outcome, for any input whatsoever. -/
theorem sweep_splice_never_null (engineCycle : Angle) (s : SchedState) (rpm : Int)
    (trg : Nat) (ts : Int) (cur next : Angle) :
    (scheduleEventsUntilNextTriggerTooth engineCycle s rpm trg ts cur next).isSome = true := by
  by_cases hv : isValidRpm rpm = false
  · simp [scheduleEventsUntilNextTriggerTooth, hv]
  · have htail := foldl_sweepStep_keeptail engineCycle s.heap trg ts cur next s.pending ⟨[], none, []⟩
      (by intro h; exact absurd rfl h)
    simp only [scheduleEventsUntilNextTriggerTooth]
    rw [if_neg hv]
    by_cases hk : (s.pending.foldl
        (sweepStep engineCycle s.heap trg ts cur next) ⟨[], none, []⟩).keep.isEmpty
    · rw [if_pos hk]
      rfl
    · rw [if_neg hk]
      have hsome := htail (by simpa [List.isEmpty_iff] using hk)
      cases hkt : (s.pending.foldl
          (sweepStep engineCycle s.heap trg ts cur next) ⟨[], none, []⟩).keeptail with
      | none => rw [hkt] at hsome; simp at hsome
      | some t => rfl

/-! Duplicate re-requests (claims C2 and C5). -/

/-- C2 (amended): in both overloads a queued call whose event is already
linked does not insert it a second time; the index-based overload increments
the systemEventReuse diagnostic counter, while the phase-based overload skips
the duplicate silently, leaving the counter unchanged. -/
theorem scheduleOrQueue_duplicate_skip :
    (∀ (setAngle : Angle → TriggerPosition) (s : SchedState) (event trg : Nat)
        (ts : Int) (ang : Angle) (act : Nat),
      (trg != TRIGGER_EVENT_UNDEFINED && (setAngle ang).triggerEventIndex == trg) = false →
      event ∈ s.pending →
      (scheduleOrQueueOld setAngle s event trg ts ang act).1.pending = s.pending ∧
      (scheduleOrQueueOld setAngle s event trg ts ang act).1.systemEventReuse =
        s.systemEventReuse + 1 ∧
      (scheduleOrQueueOld setAngle s event trg ts ang act).2.1 = false) ∧
    (∀ (engineCycle : Angle) (s : SchedState) (event trg : Nat) (ts : Int)
        (ang : Angle) (act : Nat) (cur next : Angle),
      isPhaseInRange ang cur next = false →
      event ∈ s.pending →
      (scheduleOrQueueNew engineCycle s event trg ts ang act cur next).1.pending = s.pending ∧
      (scheduleOrQueueNew engineCycle s event trg ts ang act cur next).1.systemEventReuse =
        s.systemEventReuse ∧
      (scheduleOrQueueNew engineCycle s event trg ts ang act cur next).2.1 = false) := by
  constructor
  · intro setAngle s event trg ts ang act hcond hmem
    have hc : assertNotInList s.pending event = true := by
      simp [assertNotInList, hmem]
    simp [scheduleOrQueueOld, hcond, hc]
  · intro engineCycle s event trg ts ang act cur next hcond hmem
    have hc : assertNotInList s.pending event = true := by
      simp [assertNotInList, hmem]
    simp [scheduleOrQueueNew, shouldSchedule, setEvent_same, hcond, hc]

/-- Witness for C2's amended statement: a duplicate queued request on the
pending event 1 of the example state, through each overload. -/
theorem scheduleOrQueue_duplicate_skip_witness :
    ((scheduleOrQueueOld (fun a => ⟨7, a⟩) exState 1 3 0 15 9).1.pending = exState.pending ∧
      (scheduleOrQueueOld (fun a => ⟨7, a⟩) exState 1 3 0 15 9).1.systemEventReuse =
        exState.systemEventReuse + 1 ∧
      (scheduleOrQueueOld (fun a => ⟨7, a⟩) exState 1 3 0 15 9).2.1 = false) ∧
    ((scheduleOrQueueNew 720 exState 1 3 0 100 9 0 10).1.pending = exState.pending ∧
      (scheduleOrQueueNew 720 exState 1 3 0 100 9 0 10).1.systemEventReuse =
        exState.systemEventReuse ∧
      (scheduleOrQueueNew 720 exState 1 3 0 100 9 0 10).2.1 = false) :=
  ⟨scheduleOrQueue_duplicate_skip.1 (fun a => ⟨7, a⟩) exState 1 3 0 15 9
      (by decide) (by decide),
    scheduleOrQueue_duplicate_skip.2 720 exState 1 3 0 100 9 0 10
      (by decide) (by decide)⟩

/-- State with the phase-based event 7 pending, stored action 1, reuse
counter 5: fixture for the duplicate-request counterexamples. -/
def dupState : SchedState := ⟨fun _ => ⟨.new 50, 1⟩, [7], 5⟩

/-- C2 counterexample: a duplicate queued request through the phase-based
overload (event 7 already pending, phase 100 not due in the window 0 to 10)
leaves systemEventReuse at 5 instead of incrementing it, refuting the claim
that either overload increments the diagnostic counter. -/
theorem scheduleOrQueueNew_duplicate_no_counter :
    (scheduleOrQueueNew 720 dupState 7 1 0 100 3 0 10).1.pending = [7] ∧
    (scheduleOrQueueNew 720 dupState 7 1 0 100 3 0 10).1.systemEventReuse = 5 := by
  decide

/-- C5 (amended): in both overloads the queued path stores the newly passed
action into the event before the already-linked check, so on a duplicate
re-request the newer action overwrites the pending one; only the insertion is
skipped. -/
theorem scheduleOrQueue_duplicate_overwrites_action :
    (∀ (setAngle : Angle → TriggerPosition) (s : SchedState) (event trg : Nat)
        (ts : Int) (ang : Angle) (act : Nat),
      (trg != TRIGGER_EVENT_UNDEFINED && (setAngle ang).triggerEventIndex == trg) = false →
      ((scheduleOrQueueOld setAngle s event trg ts ang act).1.heap event).action = act) ∧
    (∀ (engineCycle : Angle) (s : SchedState) (event trg : Nat) (ts : Int)
        (ang : Angle) (act : Nat) (cur next : Angle),
      isPhaseInRange ang cur next = false →
      ((scheduleOrQueueNew engineCycle s event trg ts ang act cur next).1.heap event).action =
        act) := by
  constructor
  · intro setAngle s event trg ts ang act hcond
    by_cases hc : assertNotInList s.pending event = true <;>
      simp [scheduleOrQueueOld, hcond, hc, setEvent]
  · intro engineCycle s event trg ts ang act cur next hcond
    by_cases hc : assertNotInList s.pending event = true <;>
      simp [scheduleOrQueueNew, shouldSchedule, setEvent_same, hcond, hc, setEvent]

/-- Witness for C5's amended statement: duplicate queued requests with action
9 on the example state store 9 into the event through either overload. -/
theorem scheduleOrQueue_duplicate_overwrites_action_witness :
    ((scheduleOrQueueOld (fun a => ⟨7, a⟩) exState 1 3 0 15 9).1.heap 1).action = 9 ∧
    ((scheduleOrQueueNew 720 exState 1 3 0 100 9 0 10).1.heap 1).action = 9 :=
  ⟨scheduleOrQueue_duplicate_overwrites_action.1 (fun a => ⟨7, a⟩) exState 1 3 0 15 9
      (by decide),
    scheduleOrQueue_duplicate_overwrites_action.2 720 exState 1 3 0 100 9 0 10
      (by decide)⟩

/-- C5 counterexample: event 7 is pending with stored action 1; a duplicate
not-yet-due request carrying action 2 leaves the list unchanged but the
event's stored action becomes 2, refuting the claim that the previously
stored action is kept. -/
theorem scheduleOrQueueNew_duplicate_action_overwritten :
    (dupState.heap 7).action = 1 ∧
    (scheduleOrQueueNew 720 dupState 7 1 0 100 2 0 10).1.pending = [7] ∧
    ((scheduleOrQueueNew 720 dupState 7 1 0 100 2 0 10).1.heap 7).action = 2 := by
  decide

/-! Immediate-versus-queued return value (claim C3). -/

/-- C3 (amended): the phase-based overload arms immediately and returns true
exactly when shouldSchedule holds; the index-based overload additionally
requires the supplied tooth index to differ from TRIGGER_EVENT_UNDEFINED, so
with an undefined tooth it queues even where shouldSchedule would hold. -/
theorem scheduleOrQueue_return_value :
    (∀ (setAngle : Angle → TriggerPosition) (s : SchedState) (event trg : Nat)
        (ts : Int) (ang : Angle) (act : Nat) (cur next : Angle),
      (scheduleOrQueueOld setAngle s event trg ts ang act).2.1 =
        (trg != TRIGGER_EVENT_UNDEFINED &&
          shouldSchedule ⟨.old (setAngle ang), act⟩ trg cur next) ∧
      (scheduleOrQueueOld setAngle s event trg ts ang act).2.2 =
        (if (trg != TRIGGER_EVENT_UNDEFINED &&
              shouldSchedule ⟨.old (setAngle ang), act⟩ trg cur next) = true then
          [Effect.arm event ts (setAngle ang).angleOffsetFromTriggerEvent act]
        else [])) ∧
    (∀ (engineCycle : Angle) (s : SchedState) (event trg : Nat) (ts : Int)
        (ang : Angle) (act : Nat) (cur next : Angle),
      (scheduleOrQueueNew engineCycle s event trg ts ang act cur next).2.1 =
        shouldSchedule ⟨.new ang, act⟩ trg cur next ∧
      (scheduleOrQueueNew engineCycle s event trg ts ang act cur next).2.2 =
        (if shouldSchedule ⟨.new ang, act⟩ trg cur next = true then
          [Effect.arm event ts (getAngleFromNow engineCycle ⟨.new ang, act⟩ cur) act]
        else [])) := by
  constructor
  · intro setAngle s event trg ts ang act cur next
    cases h : (trg != TRIGGER_EVENT_UNDEFINED &&
        (setAngle ang).triggerEventIndex == trg)
    · constructor <;>
        · by_cases hc : assertNotInList s.pending event = true <;>
            simp [scheduleOrQueueOld, shouldSchedule, h, hc]
    · constructor <;> simp [scheduleOrQueueOld, shouldSchedule, h]
  · intro engineCycle s event trg ts ang act cur next
    cases h : isPhaseInRange ang cur next
    · constructor <;>
        · by_cases hc : assertNotInList s.pending event = true <;>
            simp [scheduleOrQueueNew, shouldSchedule, setEvent_same, h, hc]
    · constructor <;>
        simp [scheduleOrQueueNew, shouldSchedule, getAngleFromNow, setEvent_same, h]

/-- C3 counterexample: a setAngle outcome whose tooth index is the undefined
sentinel makes shouldSchedule hold at trgEventIndex TRIGGER_EVENT_UNDEFINED,
yet the index-based overload queues, returns false and arms nothing,
refuting "returns true exactly when shouldSchedule holds". -/
theorem scheduleOrQueueOld_undefined_tooth_mismatch :
    shouldSchedule ⟨.old ⟨TRIGGER_EVENT_UNDEFINED, 15⟩, 9⟩ TRIGGER_EVENT_UNDEFINED 0 0 = true ∧
    (scheduleOrQueueOld (fun a => ⟨TRIGGER_EVENT_UNDEFINED, a⟩) dupState 1
        TRIGGER_EVENT_UNDEFINED 0 15 9).2.1 = false ∧
    (scheduleOrQueueOld (fun a => ⟨TRIGGER_EVENT_UNDEFINED, a⟩) dupState 1
        TRIGGER_EVENT_UNDEFINED 0 15 9).2.2 = [] := by
  decide

/-! The no-duplicate-linkage invariant (claim C6). -/

theorem runOp_pending_nodup (s : SchedState) (op : Op) (h : s.pending.Nodup) :
    (runOp s op).pending.Nodup := by
  have happ : ∀ e : Nat, ¬assertNotInList s.pending e = true →
      (s.pending ++ [e]).Nodup := by
    intro e he
    have hne : e ∉ s.pending := by simpa [assertNotInList] using he
    simp [List.nodup_append, h, hne]
  cases op with
  | old f event trg ts ang act =>
    simp only [runOp, scheduleOrQueueOld]
    split
    · exact h
    · split
      · exact h
      · next hc => exact happ event hc
  | new l event trg ts ang act c n =>
    simp only [runOp, scheduleOrQueueNew]
    split
    · exact h
    · split
      · exact h
      · next hc => exact happ event hc

/-- C6: across any sequence of scheduleOrQueue calls, in either overload and
any interleaving, the pending list stays free of duplicates: an event is
linked at most once in every reachable state. -/
theorem no_duplicate_linkage (s : SchedState) (ops : List Op)
    (h : s.pending.Nodup) : (runOps s ops).pending.Nodup := by
  induction ops generalizing s with
  | nil => exact h
  | cons op ops ih => exact ih (runOp s op) (runOp_pending_nodup s op h)

/-- Witness for C6: three queued requests, two of them on the same event 9,
leave the pending list duplicate-free. -/
theorem no_duplicate_linkage_witness :
    dupState.pending.Nodup ∧
      (runOps dupState [Op.new 720 7 1 0 100 3 0 10, Op.new 720 9 1 0 100 3 0 10,
        Op.new 720 9 1 0 100 3 0 10]).pending.Nodup :=
  ⟨by decide,
    no_duplicate_linkage dupState [Op.new 720 7 1 0 100 3 0 10,
      Op.new 720 9 1 0 100 3 0 10, Op.new 720 9 1 0 100 3 0 10] (by decide)⟩

/-! The phase window of a phase-based event (claim C7). -/

/-- C7 (amended): a phase-based event is due exactly when its engine phase
lies in the half-open interval from currentPhase to nextPhase, the interval
wrapping through 0 when nextPhase < currentPhase; at the spec's example
(enginePhase 10, currentPhase 715, nextPhase 5) the wrapped interval does not
contain 10, so shouldSchedule returns false there, while a phase inside the
window, such as 2, yields true. -/
theorem shouldSchedule_phase_window :
    (∀ (ph cur next : Angle) (trg act : Nat),
      shouldSchedule ⟨.new ph, act⟩ trg cur next = true ↔
        ((cur ≤ ph ∧ ph < next) ∨ (next < cur ∧ (cur ≤ ph ∨ ph < next)))) ∧
    shouldSchedule ⟨.new 10, 0⟩ 0 715 5 = false ∧
    shouldSchedule ⟨.new 2, 0⟩ 0 715 5 = true := by
  refine ⟨?_, by decide, by decide⟩
  intro ph cur next trg act
  by_cases h : next < cur
  · simp only [shouldSchedule, isPhaseInRange, if_pos h, Bool.or_eq_true,
      decide_eq_true_eq]
    constructor
    · intro hor
      exact Or.inr ⟨h, hor⟩
    · rintro (⟨h1, _⟩ | ⟨_, hor⟩)
      · exact Or.inl h1
      · exact hor
  · simp only [shouldSchedule, isPhaseInRange, if_neg h, Bool.and_eq_true,
      decide_eq_true_eq]
    constructor
    · intro hand
      exact Or.inl hand
    · rintro (hand | ⟨hlt, _⟩)
      · exact hand
      · exact absurd hlt h

/-- C7 counterexample: at the spec's own wraparound example, enginePhase 10
with the tooth transition 715 to 5 in a 720-degree cycle, shouldSchedule
returns false, not true: 10 lies outside the wrapped window. -/
theorem shouldSchedule_wrap_example :
    shouldSchedule ⟨.new 10, 0⟩ 0 715 5 = false := by
  decide

/-! Angle normalization of a phase-based event (claim C8). -/

/-- C8: for a phase-based event, getAngleFromNow returns the phase difference
enginePhase minus currentPhase, plus the engine-cycle length when that
difference is negative; with both phases inside one cycle the result lies in
the half-open interval from 0 to the cycle length. -/
theorem getAngleFromNow_phase (engineCycle ph cur : Angle) (act : Nat)
    (h1 : 0 ≤ ph) (h2 : ph < engineCycle) (h3 : 0 ≤ cur) (h4 : cur < engineCycle) :
    getAngleFromNow engineCycle ⟨.new ph, act⟩ cur =
      (if ph - cur < 0 then ph - cur + engineCycle else ph - cur) ∧
    0 ≤ getAngleFromNow engineCycle ⟨.new ph, act⟩ cur ∧
    getAngleFromNow engineCycle ⟨.new ph, act⟩ cur < engineCycle := by
  refine ⟨rfl, ?_, ?_⟩ <;>
    · simp only [getAngleFromNow]
      split <;> linarith

/-- Witness for C8: phase 10 seen from current phase 715 in a 720-degree
cycle is 15 degrees away, inside the cycle. -/
theorem getAngleFromNow_phase_witness :
    (0 : ℚ) ≤ 10 ∧ (10 : ℚ) < 720 ∧ (0 : ℚ) ≤ 715 ∧ (715 : ℚ) < 720 ∧
      (getAngleFromNow 720 ⟨.new 10, 0⟩ 715 =
        (if (10 : ℚ) - 715 < 0 then 10 - 715 + 720 else 10 - 715) ∧
      0 ≤ getAngleFromNow 720 ⟨.new 10, 0⟩ 715 ∧
      getAngleFromNow 720 ⟨.new 10, 0⟩ 715 < 720) :=
  ⟨by norm_num, by norm_num, by norm_num, by norm_num,
    getAngleFromNow_phase 720 10 715 0 (by norm_num) (by norm_num) (by norm_num)
      (by norm_num)⟩

/-! Outstanding Timed-Executor armings (claim C9). -/

theorem applyEffect_bound (st : List (Nat × Int × Angle × Nat)) (f : Effect) (h : Nat)
    (hst : (st.filter (fun p => p.1 == h)).length ≤ 1) :
    ((applyEffect st f).filter (fun p => p.1 == h)).length ≤ 1 := by
  cases f with
  | cancel h0 =>
    simp only [applyEffect, List.filter_filter]
    refine le_trans (List.Sublist.length_le ?_) hst
    exact @List.monotone_filter_right _ st (fun p => p.1 == h && p.1 != h0)
      (fun p => p.1 == h) (fun a ha => ((Bool.and_eq_true _ _).mp ha).1)
  | arm h0 ts a act =>
    simp only [applyEffect, List.filter_append, List.length_append, List.filter_filter]
    by_cases hh : h0 = h
    · subst hh
      have h1 : ∀ p : Nat × Int × Angle × Nat, (p.1 == h0 && (p.1 != h0)) = false := by
        intro p
        cases hpq : (p.1 == h0) <;> simp [bne, hpq]
      simp [h1]
    · have h2 : ((h0 : Nat) == h) = false := by simpa using hh
      have hb := le_trans (List.Sublist.length_le
        (@List.monotone_filter_right _ st (fun p => p.1 == h && p.1 != h0)
          (fun p => p.1 == h) (fun a ha => ((Bool.and_eq_true _ _).mp ha).1))) hst
      simpa [h2] using hb

theorem replay_aux_bound (effs : List Effect) (st : List (Nat × Int × Angle × Nat))
    (hst : ∀ h : Nat, (st.filter (fun p => p.1 == h)).length ≤ 1) :
    ∀ h : Nat, ((effs.foldl applyEffect st).filter (fun p => p.1 == h)).length ≤ 1 := by
  induction effs generalizing st with
  | nil => exact hst
  | cons f effs ih => exact ih (applyEffect st f) (fun h => applyEffect_bound st f h (hst h))

theorem isCancelArmPairs_flatMap (engineCycle : Angle) (heap : Nat → EventData)
    (ts : Int) (cur : Angle) (l : List Nat) :
    isCancelArmPairs (l.flatMap (dueEffects engineCycle heap ts cur)) = true := by
  induction l with
  | nil => rfl
  | cons e l ih => simpa [dueEffects, isCancelArmPairs] using ih

/-- C9 (amended): at most one Timed-Executor arming is ever outstanding per
event, over every effect trace whatsoever, because a handle's arming replaces
any prior one; and the explicit cancel-before-arm discipline holds for the
sweep, whose effect trace is a sequence of cancel-then-arm pairs on matching
handles.  The immediate path of scheduleOrQueue, by contrast, arms without a
preceding cancel (see the counterexample). -/
theorem at_most_one_arming :
    (∀ (effs : List Effect) (h : Nat),
      ((replay effs).filter (fun p => p.1 == h)).length ≤ 1) ∧
    (∀ (engineCycle : Angle) (s : SchedState) (rpm : Int) (trg : Nat) (ts : Int)
        (cur next : Angle),
      isCancelArmPairs
        ((scheduleEventsUntilNextTriggerTooth engineCycle s rpm trg ts cur next).elim []
          (fun r => r.2)) = true) := by
  constructor
  · intro effs h
    exact replay_aux_bound effs [] (by simp) h
  · intro engineCycle s rpm trg ts cur next
    by_cases hv : isValidRpm rpm = false
    · simp [scheduleEventsUntilNextTriggerTooth, hv, isCancelArmPairs]
    · have heff := foldl_sweepStep_effects engineCycle s.heap trg ts cur next s.pending
        ⟨[], none, []⟩
      simp only [scheduleEventsUntilNextTriggerTooth]
      rw [if_neg hv]
      by_cases hk : (s.pending.foldl
          (sweepStep engineCycle s.heap trg ts cur next) ⟨[], none, []⟩).keep.isEmpty
      · rw [if_pos hk]
        simpa [Option.elim, heff] using
          isCancelArmPairs_flatMap engineCycle s.heap ts cur
            (s.pending.filter (fun e => shouldSchedule (s.heap e) trg cur next))
      · rw [if_neg hk]
        cases hkt : (s.pending.foldl
            (sweepStep engineCycle s.heap trg ts cur next) ⟨[], none, []⟩).keeptail with
        | none => rfl
        | some t =>
          simpa [Option.elim, heff] using
            isCancelArmPairs_flatMap engineCycle s.heap ts cur
              (s.pending.filter (fun e => shouldSchedule (s.heap e) trg cur next))

/-- C9 counterexample: the immediate path of the index-based scheduleOrQueue
emits a lone arming with no preceding cancel of the event's handle, refuting
the claim that whenever a due event is armed a stale prior arming for it is
cancelled first. -/
theorem scheduleOrQueue_arms_without_cancel :
    (scheduleOrQueueOld (fun a => ⟨3, a⟩) dupState 1 3 0 15 9).2.2 =
      [Effect.arm 1 0 15 9] ∧
    isCancelArmPairs (scheduleOrQueueOld (fun a => ⟨3, a⟩) dupState 1 3 0 15 9).2.2 =
      false := by
  decide

end TriggerSched
